import Mathlib

/-!
# remoteclip: the clipboard history cache and its HTTP handlers

A shallow embedding of `main.go`.

* The process-wide variable `cache` is a `List String`, most recent first. It
  is threaded explicitly through every operation inside a `World`, next to a
  log of the calls made to `clipboard.WriteAll`.
* Run-time panics of Go (index out of range, slice bounds out of range) are
  results of type `Except Panic`.
* The collaborators that are not part of the repository (`encoding/json`,
  `net/http`, `github.com/atotto/clipboard`) are taken as parameters: the
  outcome of each `clipboard.ReadAll` is an input of the poller, the JSON
  decoder, `clipboard.WriteAll` and `http.DetectContentType` are fields of
  `Env`, and the header and form lookups of a request are fields of `Request`.
  The theorems on the handlers hold for every `Env`.
* For runs on concrete bodies, `goJsonDecode` models the decoder of
  `encoding/json` for a `map[string]string`, and `validJSON` is the JSON
  grammar.
-/

namespace Remoteclip

/-! ## Go run-time primitives -/

/-- Run-time panics the program can raise. -/
inductive Panic where
  | indexOutOfRange (index len : Nat)
  | sliceBoundsOutOfRange (high len : Nat)
  deriving DecidableEq, Repr

/-- Go index expression `xs[i]`: panics when `i` is not below `len(xs)`. -/
def index (xs : List String) (i : Nat) : Except Panic String :=
  match xs.get? i with
  | some x => Except.ok x
  | none => Except.error (Panic.indexOutOfRange i xs.length)

/-- Go slice expression `xs[lo:hi]`: panics unless `lo ≤ hi ≤ len(xs)`. -/
def slice (xs : List String) (lo hi : Nat) : Except Panic (List String) :=
  if hi ≤ xs.length then
    if lo ≤ hi then Except.ok ((xs.take hi).drop lo)
    else Except.error (Panic.sliceBoundsOutOfRange lo hi)
  else Except.error (Panic.sliceBoundsOutOfRange hi xs.length)

deriving instance DecidableEq for Except

/-! ## State -/

/-- The state the program acts on: the global `cache` and, for the clipboard
that lives outside the process, the arguments of the `clipboard.WriteAll`
calls made so far (oldest first). -/
structure World where
  cache : List String
  clipboardWrites : List String
  deriving DecidableEq, Repr

/-- The state at process start: `cache = []string{}` and no write made. -/
def World.init : World := ⟨[], []⟩

/-! ## The poller -/

/-- One iteration of the loop of `fetchTicker` (lines 53 to 68). The argument
`read` is the result of `clipboard.ReadAll()`: `Except.error` for a non-nil
`err`, `Except.ok content` otherwise. -/
def fetchTickerStep (read : Except String String) (w : World) : Except Panic World :=
  match read with
  | Except.error _ => Except.ok w
  | Except.ok content => do
    let same ←
      if w.cache.length > 0 then do
        let c0 ← index w.cache 0
        pure (decide (content = c0))
      else pure false
    if same then
      pure w
    else
      let cache1 := [content] ++ w.cache
      if cache1.length > 100 then do
        let cache2 ← slice cache1 0 100
        pure { w with cache := cache2 }
      else
        pure { w with cache := cache1 }

/-- The loop of `fetchTicker` run over a finite sequence of ticks, given by the
results of the successive `clipboard.ReadAll()` calls. A panic ends the loop. -/
def fetchTicker (reads : List (Except String String)) (w : World) : Except Panic World :=
  match reads with
  | [] => Except.ok w
  | read :: rest =>
    match fetchTickerStep read w with
    | Except.ok w1 => fetchTicker rest w1
    | Except.error p => Except.error p

/-! ## The HTTP handlers -/

/-- What a handler reads of an `*http.Request`. -/
structure Request where
  /-- Value of `r.Header.Get("Accept")`. -/
  accept : String
  /-- Value of `r.Header.Get("Content-Type")`. -/
  contentType : String
  /-- Content of `r.Body`. -/
  body : String
  /-- Value of `r.FormValue("content")`: the empty string when the form has no
  field `content`. -/
  formContent : String
  deriving DecidableEq, Repr

/-- What a handler hands to the `http.ResponseWriter` as the body. -/
inductive Payload where
  /-- Nothing was written. -/
  | empty
  /-- Bytes passed to `res.Write`, or written by `http.Error`. -/
  | raw (bytes : String)
  /-- The map with the single key `content` passed to `json.Encoder.Encode`. -/
  | jsonContent (content : String)
  /-- The slice passed to `json.Encoder.Encode`. -/
  | jsonList (entries : List String)
  deriving DecidableEq, Repr

/-- The response of a handler that returned. A handler that never calls
`WriteHeader` answers with status 200. -/
structure Response where
  status : Nat
  contentType : Option String
  payload : Payload
  deriving DecidableEq, Repr

def StatusOK : Nat := 200
def StatusBadRequest : Nat := 400
def StatusInternalServerError : Nat := 500

/-- The response `http.Error(res, msg, code)` produces. -/
def httpError (msg : String) (code : Nat) : Response :=
  { status := code, contentType := some "text/plain; charset=utf-8", payload := Payload.raw (msg ++ "\n") }

/-- The library functions the handlers call. -/
structure Env where
  /-- The call `json.NewDecoder(r.Body).Decode(&c)` for an empty
  `c : map[string]string`: an error, or the decoded map as a lookup. -/
  jsonDecode : String → Except String (String → Option String)
  /-- The call `clipboard.WriteAll(content)`: `none` for a nil error. -/
  writeAll : String → Option String
  /-- The function `http.DetectContentType`. -/
  detectContentType : String → String

/-- The handler `handleGet` (lines 72 to 87). -/
def handleGet (env : Env) (w : World) (r : Request) : Except Panic (World × Response) := do
  let content ← index w.cache 0
  if r.accept = "application/json" then
    pure (w, { status := StatusOK, contentType := some "application/json",
               payload := Payload.jsonContent content })
  else
    pure (w, { status := StatusOK, contentType := some (env.detectContentType content),
               payload := Payload.raw content })

/-- The handler `handleList` (lines 89 to 95). -/
def handleList (w : World) (_r : Request) : World × Response :=
  (w, { status := StatusOK, contentType := some "application/json",
        payload := Payload.jsonList w.cache })

/-- The request declares a JSON body: its `Content-Type` is one of the two
`case` labels of the `switch` in `handleSet`. -/
abbrev Request.declaredJSON (r : Request) : Prop :=
  r.contentType = "application/json" ∨ r.contentType = "text/json"

/-- The `switch` of `handleSet` (lines 100 to 119): it yields the extracted
`content`, or the error response with which the handler returns early. -/
def extractContent (env : Env) (r : Request) : Except Response String :=
  if r.declaredJSON then
    match env.jsonDecode r.body with
    | Except.error _ =>
      Except.error (httpError "Was not able to parse input JSON" StatusBadRequest)
    | Except.ok c =>
      match c "content" with
      | some cont => Except.ok cont
      | none => Except.error (httpError "JSON needs to contain key 'content'" StatusBadRequest)
  else
    Except.ok r.formContent

/-- The handler `handleSet` (lines 97 to 128): the `switch`, then the write of
lines 121 to 127. -/
def handleSet (env : Env) (w : World) (r : Request) : World × Response :=
  match extractContent env r with
  | Except.error resp => (w, resp)
  | Except.ok content =>
    if content ≠ "" then
      let w1 : World := { w with clipboardWrites := w.clipboardWrites ++ [content] }
      match env.writeAll content with
      | some _ => (w1, httpError "Was not able to set clipboard" StatusInternalServerError)
      | none => (w1, { status := StatusOK, contentType := none, payload := Payload.empty })
    else
      (w, { status := StatusOK, contentType := none, payload := Payload.empty })

/-! ## Concrete collaborators -/

/-- A JSON decoder defined on three bodies: an object with the key `content`
holding `x`, one holding the empty string, and the empty object. Every other
body is an error. -/
def sampleDecode (body : String) : Except String (String → Option String) :=
  if body = "\x7b\"content\":\"x\"\x7d" then
    Except.ok (fun k => if k = "content" then some "x" else none)
  else if body = "\x7b\"content\":\"\"\x7d" then
    Except.ok (fun k => if k = "content" then some "" else none)
  else if body = "\x7b\x7d" then
    Except.ok (fun _ => none)
  else
    Except.error "invalid character"

/-- Collaborators for concrete runs: `sampleDecode`, a clipboard whose writes
all fail or all succeed, and a constant content type. -/
def sampleEnv (writeFails : Bool) : Env :=
  { jsonDecode := sampleDecode,
    writeAll := fun _ => if writeFails then some "exit status 1" else none,
    detectContentType := fun _ => "text/plain; charset=utf-8" }

/-! ## The JSON decoder of the standard library -/

/-- A JSON value as the scanner of `encoding/json` delimits it. -/
inductive JValue where
  | null
  | bool (b : Bool)
  | number
  | string (s : List Char)
  | array (items : List JValue)
  | object (members : List (List Char × JValue))

/-- The quotation mark. -/
def quoteChar : Char := Char.ofNat 34

/-- The reverse solidus that starts an escape. -/
def escapeChar : Char := Char.ofNat 92

/-- The function `isSpace` of the scanner: space, tab, carriage return, line feed. -/
def isSpace (c : Char) : Bool :=
  c.toNat = 32 || c.toNat = 9 || c.toNat = 13 || c.toNat = 10

/-- Drop leading white space. -/
def skipSpace : List Char → List Char
  | [] => []
  | c :: cs => if isSpace c then skipSpace cs else c :: cs

/-- Value of a hexadecimal digit. -/
def hexDigit (c : Char) : Option Nat :=
  if 48 ≤ c.toNat ∧ c.toNat ≤ 57 then some (c.toNat - 48)
  else if 97 ≤ c.toNat ∧ c.toNat ≤ 102 then some (c.toNat - 87)
  else if 65 ≤ c.toNat ∧ c.toNat ≤ 70 then some (c.toNat - 55)
  else none

/-- The function `getu4` after the `\u` of an escape: the value of the four
hexadecimal digits that follow, when there are four. -/
def hex4 (cs : List Char) : Option (Nat × List Char) :=
  match cs with
  | a :: b :: c :: d :: rest =>
    match hexDigit a, hexDigit b, hexDigit c, hexDigit d with
    | some x, some y, some z, some u => some (((x * 16 + y) * 16 + z) * 16 + u, rest)
    | _, _, _, _ => none
  | _ => none

/-- The single-character escapes of a JSON string. -/
def simpleEscape (c : Char) : Option Char :=
  if c = quoteChar then some quoteChar
  else if c = escapeChar then some escapeChar
  else if c = '/' then some '/'
  else if c = 'b' then some (Char.ofNat 8)
  else if c = 'f' then some (Char.ofNat 12)
  else if c = 'n' then some (Char.ofNat 10)
  else if c = 'r' then some (Char.ofNat 13)
  else if c = 't' then some (Char.ofNat 9)
  else none

/-- Scan and unquote a JSON string whose opening quotation mark has been
consumed: the unquoted text and the input after the closing quotation mark.
Control characters are rejected; a `\u` escape that is a surrogate is combined
with a following low surrogate escape or becomes U+FFFD. -/
def scanString (fuel : Nat) (cs : List Char) (acc : List Char) : Option (List Char × List Char) :=
  match fuel with
  | 0 => none
  | fuel + 1 =>
    match cs with
    | [] => none
    | c :: rest =>
      if c = quoteChar then some (acc.reverse, rest)
      else if c = escapeChar then
        match rest with
        | [] => none
        | e :: rest1 =>
          if e = 'u' then
            match hex4 rest1 with
            | none => none
            | some (rr, rest2) =>
              if 0xD800 ≤ rr ∧ rr < 0xE000 then
                match rest2 with
                | e1 :: e2 :: rest3 =>
                  if e1 = escapeChar ∧ e2 = 'u' then
                    match hex4 rest3 with
                    | some (rr1, rest4) =>
                      if rr < 0xDC00 ∧ 0xDC00 ≤ rr1 ∧ rr1 < 0xE000 then
                        scanString fuel rest4
                          (Char.ofNat ((rr - 0xD800) * 0x400 + (rr1 - 0xDC00) + 0x10000) :: acc)
                      else scanString fuel rest2 (Char.ofNat 0xFFFD :: acc)
                    | none => scanString fuel rest2 (Char.ofNat 0xFFFD :: acc)
                  else scanString fuel rest2 (Char.ofNat 0xFFFD :: acc)
                | _ => scanString fuel rest2 (Char.ofNat 0xFFFD :: acc)
              else scanString fuel rest2 (Char.ofNat rr :: acc)
          else
            match simpleEscape e with
            | some x => scanString fuel rest1 (x :: acc)
            | none => none
      else if c.toNat < 32 then none
      else scanString fuel rest (c :: acc)

/-- Drop leading decimal digits. -/
def skipDigits : List Char → List Char
  | [] => []
  | c :: cs => if c.isDigit then skipDigits cs else c :: cs

/-- At least one decimal digit, then what follows the digits. -/
def digits1 (cs : List Char) : Option (List Char) :=
  match cs with
  | c :: rest => if c.isDigit then some (skipDigits rest) else none
  | [] => none

/-- Scan a JSON number: the input after it. -/
def scanNumber (cs : List Char) : Option (List Char) :=
  let afterSign := match cs with
    | c :: rest => if c = '-' then rest else cs
    | [] => cs
  let afterInt : Option (List Char) := match afterSign with
    | c :: rest =>
      if c = '0' then some rest
      else if c.isDigit then some (skipDigits rest)
      else none
    | [] => none
  match afterInt with
  | none => none
  | some r1 =>
    let afterFrac : Option (List Char) := match r1 with
      | c :: rest => if c = '.' then digits1 rest else some r1
      | [] => some r1
    match afterFrac with
    | none => none
    | some r2 =>
      match r2 with
      | c :: rest =>
        if c = 'e' ∨ c = 'E' then
          match rest with
          | s :: rest1 => if s = '+' ∨ s = '-' then digits1 rest1 else digits1 rest
          | [] => none
        else some r2
      | [] => some r2

/-- Strip a literal from the front of the input. -/
def stripLiteral (lit cs : List Char) : Option (List Char) :=
  match lit, cs with
  | [], rest => some rest
  | l :: ls, c :: rest => if l = c then stripLiteral ls rest else none
  | _ :: _, [] => none

mutual
/-- Scan one JSON value after optional white space: the value and the input
that follows it. -/
def scanValue (fuel : Nat) (cs : List Char) : Option (JValue × List Char) :=
  match fuel with
  | 0 => none
  | fuel + 1 =>
    match skipSpace cs with
    | [] => none
    | c :: rest =>
      if c = '{' then
        match skipSpace rest with
        | d :: rest1 => if d = '}' then some (JValue.object [], rest1) else scanMembers fuel (d :: rest1) []
        | [] => none
      else if c = '[' then
        match skipSpace rest with
        | d :: rest1 => if d = ']' then some (JValue.array [], rest1) else scanItems fuel (d :: rest1) []
        | [] => none
      else if c = quoteChar then
        match scanString (rest.length + 1) rest [] with
        | some (s, rest1) => some (JValue.string s, rest1)
        | none => none
      else if c = 't' then (stripLiteral "rue".toList rest).map (fun r => (JValue.bool true, r))
      else if c = 'f' then (stripLiteral "alse".toList rest).map (fun r => (JValue.bool false, r))
      else if c = 'n' then (stripLiteral "ull".toList rest).map (fun r => (JValue.null, r))
      else (scanNumber (c :: rest)).map (fun r => (JValue.number, r))

/-- Scan the members of an object from a key on, up to the closing brace. -/
def scanMembers (fuel : Nat) (cs : List Char) (acc : List (List Char × JValue)) :
    Option (JValue × List Char) :=
  match fuel with
  | 0 => none
  | fuel + 1 =>
    match skipSpace cs with
    | q :: rest =>
      if q = quoteChar then
        match scanString (rest.length + 1) rest [] with
        | none => none
        | some (key, rest1) =>
          match skipSpace rest1 with
          | colon :: rest2 =>
            if colon = ':' then
              match scanValue fuel rest2 with
              | none => none
              | some (v, rest3) =>
                match skipSpace rest3 with
                | d :: rest4 =>
                  if d = ',' then scanMembers fuel rest4 ((key, v) :: acc)
                  else if d = '}' then some (JValue.object (((key, v) :: acc).reverse), rest4)
                  else none
                | [] => none
            else none
          | [] => none
      else none
    | [] => none

/-- Scan the items of an array from a value on, up to the closing bracket. -/
def scanItems (fuel : Nat) (cs : List Char) (acc : List JValue) : Option (JValue × List Char) :=
  match fuel with
  | 0 => none
  | fuel + 1 =>
    match scanValue fuel cs with
    | none => none
    | some (v, rest) =>
      match skipSpace rest with
      | d :: rest1 =>
        if d = ',' then scanItems fuel rest1 (v :: acc)
        else if d = ']' then some (JValue.array ((v :: acc).reverse), rest1)
        else none
      | [] => none
end

/-- Store the members of a scanned object into a `map[string]string`, in
order: a string value is stored, `null` stores the zero value, any other value
is an `UnmarshalTypeError`. -/
def storeMembers (ms : List (List Char × JValue)) (m : String → Option String) :
    Except String (String → Option String) :=
  match ms with
  | [] => Except.ok m
  | (key, JValue.string s) :: rest =>
    storeMembers rest (fun k => if k = String.mk key then some (String.mk s) else m k)
  | (key, JValue.null) :: rest =>
    storeMembers rest (fun k => if k = String.mk key then some "" else m k)
  | _ :: _ => Except.error "json: cannot unmarshal into Go value of type string"

/-- Model of `json.NewDecoder(r.Body).Decode(&c)` of the Go standard library
for an empty `c : map[string]string`. The decoder reads the first JSON value of
the stream and ignores what follows it. A syntax error or an early end of the
input is an error. The value `null` leaves no entry, an object is stored
member by member, every other value is an `UnmarshalTypeError`. -/
def goJsonDecode (body : String) : Except String (String → Option String) :=
  match scanValue (body.length + 1) body.toList with
  | none => Except.error "invalid character or unexpected end of JSON input"
  | some (JValue.null, _) => Except.ok (fun _ => none)
  | some (JValue.object ms, _) => storeMembers ms (fun _ => none)
  | some (_, _) => Except.error "json: cannot unmarshal into Go value of type map[string]string"

/-- The body is well-formed JSON: one JSON value with optional white space
around it and nothing else. -/
def validJSON (body : String) : Bool :=
  match scanValue (body.length + 1) body.toList with
  | some (_, rest) => (skipSpace rest).isEmpty
  | none => false

/-- The body starts with a JSON object that has a member with the given key. -/
def objectHasKey (body key : String) : Bool :=
  match scanValue (body.length + 1) body.toList with
  | some (JValue.object ms, _) => ms.any (fun kv => String.mk kv.1 = key)
  | _ => false

/-- Collaborators with the decoder `goJsonDecode`, a clipboard whose writes all
fail or all succeed, and a constant content type. -/
def goEnv (writeFails : Bool) : Env :=
  { jsonDecode := goJsonDecode,
    writeAll := fun _ => if writeFails then some "exit status 1" else none,
    detectContentType := fun _ => "text/plain; charset=utf-8" }

/-! ## Reference definitions -/

/-- The capacity bound of the History. -/
def capacity : Nat := 100

/-- Reference definition of Insert: no change when the History is non-empty
and its head equals the text, otherwise the first `capacity` entries of the
text followed by the History. -/
def insertRef (h : List String) (t : String) : List String :=
  if h ≠ [] ∧ h.head? = some t then h else (t :: h).take capacity

/-- Collapse each run of consecutive equal texts to one entry. -/
def collapseRuns : List String → List String
  | [] => []
  | [a] => [a]
  | a :: b :: rest => if a = b then collapseRuns (b :: rest) else a :: collapseRuns (b :: rest)

/-- History after a sequence of ticks, by the reference definition of Insert:
a failed read is skipped, a successful read is inserted. -/
def historyAfter (reads : List (Except String String)) (h : List String) : List String :=
  match reads with
  | [] => h
  | Except.error _ :: rest => historyAfter rest h
  | Except.ok t :: rest => historyAfter rest (insertRef h t)

/-- No two adjacent entries are equal. -/
def NoAdjacentEqual (h : List String) : Prop :=
  ∀ i, ∀ hi : i + 1 < h.length, h.get ⟨i, Nat.lt_of_succ_lt hi⟩ ≠ h.get ⟨i + 1, hi⟩

/-! ## Lemmas on the poller -/

theorem index_zero_cons (c : String) (cs : List String) : index (c :: cs) 0 = Except.ok c := rfl

theorem index_zero_nil : index [] 0 = Except.error (Panic.indexOutOfRange 0 0) := rfl

theorem slice_zero_of_le (xs : List String) (n : Nat) (h : n ≤ xs.length) :
    slice xs 0 n = Except.ok (xs.take n) := by
  simp [slice, h]

theorem fetchTickerStep_error (e : String) (w : World) :
    fetchTickerStep (Except.error e) w = Except.ok w := rfl

theorem fetchTickerStep_ok (t : String) (w : World) :
    fetchTickerStep (Except.ok t) w = Except.ok { w with cache := insertRef w.cache t } := by
  obtain ⟨cache, writes⟩ := w
  cases cache with
  | nil =>
    simp [fetchTickerStep, insertRef, capacity, bind, Except.bind, pure, Except.pure]
  | cons c cs =>
    by_cases hc : t = c
    · subst hc
      simp [fetchTickerStep, insertRef, index_zero_cons, bind, Except.bind, pure, Except.pure]
    · have hc2 : ¬ c = t := fun h => hc h.symm
      by_cases hl : 100 < (c :: cs).length + 1
      · have hle : 100 ≤ ([t] ++ c :: cs).length := by simp at hl ⊢; omega
        simp [fetchTickerStep, insertRef, capacity, index_zero_cons, bind, Except.bind, pure,
          Except.pure, hc, hc2]
        have hl3 : 100 < cs.length + 1 + 1 := by simpa using hl
        simp only [hl3, if_true]
        have := slice_zero_of_le ([t] ++ c :: cs) 100 hle
        simp at this
        simp [this]
      · have hl3 : ¬ 100 < cs.length + 1 + 1 := by simpa using hl
        have hlen : cs.length + 1 + 1 ≤ 100 := by omega
        simp [fetchTickerStep, insertRef, capacity, index_zero_cons, bind, Except.bind, pure,
          Except.pure, hc, hc2, hl3]
        omega

theorem fetchTicker_eq (reads : List (Except String String)) (w : World) :
    fetchTicker reads w = Except.ok { w with cache := historyAfter reads w.cache } := by
  induction reads generalizing w with
  | nil => rfl
  | cons read rest ih =>
    cases read with
    | error e => simp [fetchTicker, fetchTickerStep_error, historyAfter, ih]
    | ok t => simp [fetchTicker, fetchTickerStep_ok, historyAfter, ih]

theorem historyAfter_append (xs ys : List (Except String String)) (h : List String) :
    historyAfter (xs ++ ys) h = historyAfter ys (historyAfter xs h) := by
  induction xs generalizing h with
  | nil => rfl
  | cons read rest ih =>
    cases read with
    | error e => simpa [historyAfter] using ih h
    | ok t => simpa [historyAfter] using ih (insertRef h t)

theorem insertRef_length_le (h : List String) (t : String) (hlen : h.length ≤ capacity) :
    (insertRef h t).length ≤ capacity := by
  unfold insertRef
  split
  · exact hlen
  · simp [List.length_take]

theorem historyAfter_length_le (reads : List (Except String String)) (h : List String)
    (hlen : h.length ≤ capacity) : (historyAfter reads h).length ≤ capacity := by
  induction reads generalizing h with
  | nil => exact hlen
  | cons read rest ih =>
    cases read with
    | error e => exact ih h hlen
    | ok t => exact ih _ (insertRef_length_le h t hlen)

theorem insertRef_chain (h : List String) (t : String) (hc : List.Chain' (· ≠ ·) h) :
    List.Chain' (· ≠ ·) (insertRef h t) := by
  unfold insertRef
  split
  · exact hc
  · rename_i hne
    apply List.Chain'.take
    apply List.Chain'.cons' hc
    intro y hy
    have hy2 : h.head? = some y := by simpa using hy
    intro hty
    apply hne
    refine ⟨?_, ?_⟩
    · intro hnil
      simp [hnil] at hy2
    · rw [hy2, hty]

theorem historyAfter_chain (reads : List (Except String String)) (h : List String)
    (hc : List.Chain' (· ≠ ·) h) : List.Chain' (· ≠ ·) (historyAfter reads h) := by
  induction reads generalizing h with
  | nil => exact hc
  | cons read rest ih =>
    cases read with
    | error e => exact ih h hc
    | ok t => exact ih _ (insertRef_chain h t hc)

theorem noAdjacentEqual_of_chain (h : List String) (hc : List.Chain' (· ≠ ·) h) :
    NoAdjacentEqual h := by
  intro i hi
  exact (List.chain'_iff_get.mp hc) i (by omega)

theorem collapseRuns_cons (t : String) (ys : List String) :
    collapseRuns (t :: ys) =
      if ys.head? = some t then collapseRuns ys else t :: collapseRuns ys := by
  cases ys with
  | nil => simp [collapseRuns]
  | cons b rest =>
    by_cases hb : t = b
    · subst hb
      simp [collapseRuns]
    · have hb2 : ¬ b = t := fun h => hb h.symm
      simp [collapseRuns, hb, hb2]

theorem head?_collapseRuns (ys : List String) : (collapseRuns ys).head? = ys.head? := by
  induction ys with
  | nil => rfl
  | cons a rest ih =>
    rw [collapseRuns_cons]
    split
    · rename_i h
      rw [ih, h]
      rfl
    · rfl

theorem collapseRuns_append_singleton (xs : List String) (t : String) :
    collapseRuns (xs ++ [t]) =
      if xs.getLast? = some t then collapseRuns xs else collapseRuns xs ++ [t] := by
  induction xs with
  | nil => simp [collapseRuns]
  | cons a ys ih =>
    cases ys with
    | nil =>
      by_cases hat : a = t
      · subst hat
        simp [collapseRuns]
      · simp [collapseRuns, hat]
    | cons b zs =>
      have hlast : (a :: b :: zs).getLast? = (b :: zs).getLast? := by
        simp [List.getLast?_cons_cons]
      rw [hlast]
      show collapseRuns (a :: (b :: zs ++ [t])) = _
      rw [collapseRuns_cons a (b :: zs ++ [t]), ih, collapseRuns_cons a (b :: zs)]
      have hhead : (b :: zs ++ [t]).head? = some b := rfl
      have hhead2 : (b :: zs).head? = some b := rfl
      rw [hhead, hhead2]
      by_cases h1 : b = a <;> by_cases h2 : (b :: zs).getLast? = some t <;>
        simp [h1, h2]

theorem collapseRuns_reverse (xs : List String) :
    collapseRuns xs.reverse = (collapseRuns xs).reverse := by
  induction xs with
  | nil => rfl
  | cons a ys ih =>
    rw [List.reverse_cons, collapseRuns_append_singleton, ih, collapseRuns_cons,
      List.getLast?_reverse]
    split <;> simp

theorem insertRef_take (l : List String) (t : String) :
    insertRef (l.take capacity) t =
      if l.head? = some t then l.take capacity else (t :: l).take capacity := by
  have hhead : (l.take capacity).head? = l.head? := by
    cases l <;> simp [capacity]
  unfold insertRef
  rw [hhead]
  by_cases h : l.head? = some t
  · have hne : l.take capacity ≠ [] := by
      intro hnil
      rw [hnil] at hhead
      rw [h] at hhead
      simp at hhead
    simp [h, hne]
  · simp [h, capacity, List.take_take]

theorem historyAfter_inserts (texts : List String) :
    historyAfter (texts.map Except.ok) [] = (collapseRuns texts.reverse).take capacity := by
  induction texts using List.reverseRecOn with
  | nil => rfl
  | append_singleton xs t ih =>
    rw [List.map_append, historyAfter_append, ih]
    simp only [List.map_cons, List.map_nil, historyAfter, List.reverse_append,
      List.reverse_cons, List.reverse_nil, List.nil_append, List.singleton_append]
    rw [insertRef_take, collapseRuns_cons, head?_collapseRuns]
    split <;> rfl

/-! ## The History invariants -/

/-- C1: starting from the empty History, after every tick of every finite
sequence of ticks (failed or successful reads of arbitrary texts) the poller
has produced a History of at most 100 entries. -/
theorem history_length_le_capacity (reads : List (Except String String)) (n : Nat) :
    ∃ w, fetchTicker (reads.take n) World.init = Except.ok w ∧ w.cache.length ≤ 100 := by
  refine ⟨_, fetchTicker_eq _ _, ?_⟩
  exact historyAfter_length_le _ _ (by simp [World.init])

/-- C2: the insert step of the poller equals the reference definition of
Insert: the History is unchanged when it is non-empty and its head is the text,
and otherwise it becomes the first 100 entries of the text followed by the
History, so the text is at index 0, the previous entries follow in their
order, all of them when fewer than 100 were held and all but the oldest when
100 were held. -/
theorem insert_eq_reference (w : World) (t : String) :
    fetchTickerStep (Except.ok t) w = Except.ok { w with cache := insertRef w.cache t } ∧
    (w.cache ≠ [] ∧ w.cache.head? = some t → insertRef w.cache t = w.cache) ∧
    (¬ (w.cache ≠ [] ∧ w.cache.head? = some t) →
      insertRef w.cache t = (t :: w.cache).take 100 ∧
      (insertRef w.cache t).head? = some t ∧
      (insertRef w.cache t).tail = w.cache.take 99 ∧
      (w.cache.length < 100 → insertRef w.cache t = t :: w.cache) ∧
      (w.cache.length = 100 → insertRef w.cache t = t :: w.cache.dropLast)) := by
  refine ⟨fetchTickerStep_ok t w, ?_, ?_⟩
  · intro h
    simp [insertRef, h]
  · intro h
    have hins : insertRef w.cache t = t :: w.cache.take 99 := by
      unfold insertRef
      rw [if_neg h]
      rfl
    refine ⟨by rw [hins]; rfl, by rw [hins]; rfl, by rw [hins]; rfl, ?_, ?_⟩
    · intro hlt
      rw [hins, List.take_of_length_le (by omega)]
    · intro heq
      rw [hins, List.dropLast_eq_take, heq]

theorem insert_eq_reference_witness :
    (¬ (["b", "a"] ≠ [] ∧ ["b", "a"].head? = some "c")) ∧
    fetchTickerStep (Except.ok "c") ⟨["b", "a"], []⟩ = Except.ok ⟨["c", "b", "a"], []⟩ ∧
    ((["c", "b", "a"] : List String) ≠ [] ∧ ["c", "b", "a"].head? = some "c") ∧
    fetchTickerStep (Except.ok "c") ⟨["c", "b", "a"], []⟩ = Except.ok ⟨["c", "b", "a"], []⟩ := by
  have h1 := insert_eq_reference ⟨["b", "a"], []⟩ "c"
  have h2 := insert_eq_reference ⟨["c", "b", "a"], []⟩ "c"
  have hn : ¬ (["b", "a"] ≠ [] ∧ ["b", "a"].head? = some "c") := by decide
  have hy : (["c", "b", "a"] : List String) ≠ [] ∧ ["c", "b", "a"].head? = some "c" := by decide
  refine ⟨hn, ?_, hy, ?_⟩
  · rw [h1.1, (h1.2.2 hn).2.2.2.1 (by decide)]
  · rw [h2.1, h2.2.1 hy]

/-- C3: in every History the poller reaches from the empty History by a finite
sequence of inserts, no two adjacent entries are equal. -/
theorem history_no_adjacent_equal (texts : List String) :
    ∃ w, fetchTicker (texts.map Except.ok) World.init = Except.ok w ∧
      ∀ i, ∀ hi : i + 1 < w.cache.length,
        w.cache.get ⟨i, Nat.lt_of_succ_lt hi⟩ ≠ w.cache.get ⟨i + 1, hi⟩ := by
  refine ⟨_, fetchTicker_eq _ _, ?_⟩
  exact noAdjacentEqual_of_chain _ (historyAfter_chain _ _ (by simp [World.init]))

theorem history_no_adjacent_equal_witness :
    ∃ w, fetchTicker (["a", "a", "b"].map Except.ok) World.init = Except.ok w ∧
      ∃ hi : 0 + 1 < w.cache.length,
        w.cache = ["b", "a"] ∧
        w.cache.get ⟨0, Nat.lt_of_succ_lt hi⟩ ≠ w.cache.get ⟨0 + 1, hi⟩ := by
  obtain ⟨w, hw, hadj⟩ := history_no_adjacent_equal ["a", "a", "b"]
  have hrun : fetchTicker (["a", "a", "b"].map Except.ok) World.init
      = Except.ok ⟨["b", "a"], []⟩ := by decide
  have hw2 : w = ⟨["b", "a"], []⟩ := by
    rw [hrun] at hw
    exact (Except.ok.inj hw).symm
  have hlen : 0 + 1 < w.cache.length := by rw [hw2]; decide
  exact ⟨w, hw, hlen, by rw [hw2], hadj 0 hlen⟩

/-- C5: deduplication is against the head only: the History the poller holds
after inserting a sequence of texts into the empty History is the first 100
entries of the reversed sequence with each run of consecutive equal texts
collapsed to one entry (collapsing after or before the reversal gives the same
list); for distinct a and b, inserting a, b, a yields the three entries
a, b, a. -/
theorem dedup_against_head_only (texts : List String) :
    fetchTicker (texts.map Except.ok) World.init
      = Except.ok ⟨(collapseRuns texts.reverse).take 100, []⟩ ∧
    collapseRuns texts.reverse = (collapseRuns texts).reverse ∧
    ∀ a b : String, a ≠ b →
      fetchTicker [Except.ok a, Except.ok b, Except.ok a] World.init
        = Except.ok ⟨[a, b, a], []⟩ := by
  refine ⟨?_, collapseRuns_reverse texts, ?_⟩
  · rw [fetchTicker_eq]
    show Except.ok (World.mk (historyAfter (texts.map Except.ok) []) []) = _
    rw [historyAfter_inserts]
    rfl
  · intro a b hab
    have hba : ¬ b = a := fun h => hab h.symm
    rw [fetchTicker_eq]
    simp [historyAfter, insertRef, World.init, capacity, hab, hba]

theorem dedup_against_head_only_witness :
    ("a" : String) ≠ "b" ∧
    fetchTicker [Except.ok "a", Except.ok "b", Except.ok "a"] World.init
      = Except.ok ⟨["a", "b", "a"], []⟩ :=
  ⟨by decide, (dedup_against_head_only []).2.2 "a" "b" (by decide)⟩

/-- C9: a failed clipboard read is not fatal to the poller: no tick panics, a
tick whose read fails leaves the state unchanged, the loop goes on with the
remaining ticks, and a successful read of a text after it is inserted by the
Insert rule. -/
theorem failed_read_not_fatal (w : World) (e : String) :
    (∀ read, ∃ w1, fetchTickerStep read w = Except.ok w1) ∧
    fetchTickerStep (Except.error e) w = Except.ok w ∧
    (∀ rest, fetchTicker (Except.error e :: rest) w = fetchTicker rest w) ∧
    (∀ t, fetchTicker [Except.error e, Except.ok t] w
        = Except.ok { w with cache := insertRef w.cache t }) := by
  refine ⟨?_, rfl, ?_, ?_⟩
  · intro read
    cases read with
    | error e1 => exact ⟨_, fetchTickerStep_error e1 w⟩
    | ok t => exact ⟨_, fetchTickerStep_ok t w⟩
  · intro rest
    simp [fetchTicker, fetchTickerStep_error]
  · intro t
    rw [fetchTicker_eq]
    rfl

/-! ## The handlers -/

/-- C4: on the empty History `handleGet` panics with an index out of range at
`cache[0]` for every request, so it produces no response; on a non-empty
History it answers with the head. -/
theorem handleGet_empty_history_panics (env : Env) (writes : List String) (r : Request) :
    handleGet env ⟨[], writes⟩ r = Except.error (Panic.indexOutOfRange 0 0) ∧
    ∀ c cs, ∃ resp, handleGet env ⟨c :: cs, writes⟩ r = Except.ok (⟨c :: cs, writes⟩, resp) := by
  refine ⟨rfl, ?_⟩
  intro c cs
  by_cases ha : r.accept = "application/json"
  · exact ⟨_, by simp [handleGet, index_zero_cons, ha, bind, Except.bind, pure, Except.pure]; rfl⟩
  · exact ⟨_, by simp [handleGet, index_zero_cons, ha, bind, Except.bind, pure, Except.pure]; rfl⟩

theorem handleSet_cache (env : Env) (w : World) (r : Request) :
    (handleSet env w r).1.cache = w.cache := by
  unfold handleSet
  split
  · rfl
  · split
    · split <;> rfl
    · rfl

theorem extractContent_json (env : Env) (r : Request) (c : String → Option String) (x : String)
    (hj : r.declaredJSON) (hd : env.jsonDecode r.body = Except.ok c) (hc : c "content" = some x) :
    extractContent env r = Except.ok x := by
  simp [extractContent, hj, hd, hc]

theorem extractContent_form (env : Env) (r : Request) (hj : ¬ r.declaredJSON) :
    extractContent env r = Except.ok r.formContent := by
  simp [extractContent, hj]

theorem insertRef_eq_cons (h : List String) (x : String) : ∃ rest, insertRef h x = x :: rest := by
  unfold insertRef
  split
  · rename_i hh
    cases h with
    | nil => exact absurd rfl hh.1
    | cons c cs =>
      have : c = x := by simpa using hh.2
      exact ⟨cs, by rw [this]⟩
  · exact ⟨h.take 99, rfl⟩

/-- C6, amended: `handleSet` bypasses the cache: for every request and every
outcome of the clipboard write the History is unchanged, so `handleList`
answers with the same History as before and with no text that was not in it;
for a request whose `Content-Type` is exactly `application/json` or
`text/json` and whose JSON body decodes to the non-empty content x the handler
calls `clipboard.WriteAll` once, with x, and answers 200 with an empty body
when that write succeeds; after a poller tick that reads x, `handleList`
answers with x at the head. -/
theorem handleSet_bypasses_cache (env : Env) (w : World) (r : Request) :
    (handleSet env w r).1.cache = w.cache ∧
    (∀ q, (handleList (handleSet env w r).1 q).2 = (handleList w q).2) ∧
    (∀ q x, x ∉ w.cache →
      ∀ l, (handleList (handleSet env w r).1 q).2.payload = Payload.jsonList l → x ∉ l) ∧
    (∀ c x, r.declaredJSON → env.jsonDecode r.body = Except.ok c → c "content" = some x →
      x ≠ "" →
      (handleSet env w r).1 = { w with clipboardWrites := w.clipboardWrites ++ [x] } ∧
      (env.writeAll x = none →
        (handleSet env w r).2 = { status := 200, contentType := none, payload := Payload.empty })) ∧
    (∀ q x, ∃ w2 rest, fetchTickerStep (Except.ok x) (handleSet env w r).1 = Except.ok w2 ∧
      (handleList w2 q).2.payload = Payload.jsonList (x :: rest)) := by
  have hcache := handleSet_cache env w r
  refine ⟨hcache, ?_, ?_, ?_, ?_⟩
  · intro q
    simp [handleList, hcache]
  · intro q x hx l hl
    simp only [handleList, hcache, Payload.jsonList.injEq] at hl
    rw [← hl]
    exact hx
  · intro c x hj hd hc hx
    have hex := extractContent_json env r c x hj hd hc
    refine ⟨?_, ?_⟩
    · simp only [handleSet, hex, hx, ne_eq, not_false_eq_true, if_true]
      split <;> rfl
    · intro hwr
      simp [handleSet, hex, hx, hwr, StatusOK]
  · intro q x
    obtain ⟨rest, hrest⟩ := insertRef_eq_cons (handleSet env w r).1.cache x
    refine ⟨_, rest, fetchTickerStep_ok x _, ?_⟩
    simp [handleList, hrest]

theorem handleSet_bypasses_cache_witness :
    ("y" ∉ ["a"]) ∧
    (⟨"", "application/json", "\x7b\"content\":\"x\"\x7d", ""⟩ : Request).declaredJSON ∧
    ("x" : String) ≠ "" ∧
    handleSet (sampleEnv false) ⟨["a"], []⟩ ⟨"", "application/json", "\x7b\"content\":\"x\"\x7d", ""⟩
      = (⟨["a"], ["x"]⟩, ⟨200, none, Payload.empty⟩) ∧
    (handleList (handleSet (sampleEnv false) ⟨["a"], []⟩
        ⟨"", "application/json", "\x7b\"content\":\"x\"\x7d", ""⟩).1 ⟨"", "", "", ""⟩).2.payload
      = Payload.jsonList ["a"] := by
  have h := handleSet_bypasses_cache (sampleEnv false) ⟨["a"], []⟩
    ⟨"", "application/json", "\x7b\"content\":\"x\"\x7d", ""⟩
  have hj : (⟨"", "application/json", "\x7b\"content\":\"x\"\x7d", ""⟩ : Request).declaredJSON := by
    decide
  have hx : ("x" : String) ≠ "" := by decide
  have hy : "y" ∉ ["a"] := by decide
  have h4 := h.2.2.2.1 (fun k => if k = "content" then some "x" else none) "x" hj rfl rfl hx
  have h3 := h.2.2.1 ⟨"", "", "", ""⟩ "y" hy
  refine ⟨hy, hj, hx, Prod.ext h4.1 (h4.2 rfl), ?_⟩
  rw [h.2.1 ⟨"", "", "", ""⟩]
  rfl

/-- C6, as stated, fails: the JSON body with the key `content` holding `x`,
sent with the `Content-Type` `application/json; charset=utf-8`, matches no
`case` of the `switch`; the content is taken from the form, which is empty, and
the handler answers 200 without any call to `clipboard.WriteAll`. -/
theorem handleSet_json_body_undeclared_no_write :
    (∃ c, (sampleEnv false).jsonDecode "\x7b\"content\":\"x\"\x7d" = Except.ok c ∧
      c "content" = some "x") ∧
    ("x" : String) ≠ "" ∧
    (sampleEnv false).writeAll "x" = none ∧
    handleSet (sampleEnv false) ⟨["a"], []⟩
        ⟨"", "application/json; charset=utf-8", "\x7b\"content\":\"x\"\x7d", ""⟩
      = (⟨["a"], []⟩, ⟨200, none, Payload.empty⟩) :=
  ⟨⟨fun k => if k = "content" then some "x" else none, rfl, rfl⟩, by decide, rfl, by decide⟩

/-- C7, amended: the statuses of `handleSet`: a request declared as JSON for
whose body the decoder returns an error, or decodes to a map without the key
`content`, is answered with 400 and leaves the History and the clipboard
untouched; a request whose extracted content is non-empty and whose clipboard
write fails is answered with 500; every other request is answered with 200.
No other request is answered with 400 or with 500. -/
theorem handleSet_error_statuses (env : Env) (w : World) (r : Request) :
    (r.declaredJSON →
      ((∃ e, env.jsonDecode r.body = Except.error e) ∨
        (∃ c, env.jsonDecode r.body = Except.ok c ∧ c "content" = none)) →
      (handleSet env w r).2.status = 400 ∧ (handleSet env w r).1 = w) ∧
    (∀ x e, extractContent env r = Except.ok x → x ≠ "" → env.writeAll x = some e →
      (handleSet env w r).2.status = 500) ∧
    (¬ (r.declaredJSON ∧
        ((∃ e, env.jsonDecode r.body = Except.error e) ∨
          (∃ c, env.jsonDecode r.body = Except.ok c ∧ c "content" = none))) →
      ¬ (∃ x e, extractContent env r = Except.ok x ∧ x ≠ "" ∧ env.writeAll x = some e) →
      (handleSet env w r).2.status = 200) ∧
    ((handleSet env w r).2.status = 400 →
      r.declaredJSON ∧
        ((∃ e, env.jsonDecode r.body = Except.error e) ∨
          (∃ c, env.jsonDecode r.body = Except.ok c ∧ c "content" = none))) ∧
    ((handleSet env w r).2.status = 500 →
      ∃ x e, extractContent env r = Except.ok x ∧ x ≠ "" ∧ env.writeAll x = some e) := by
  have h1 : r.declaredJSON →
      ((∃ e, env.jsonDecode r.body = Except.error e) ∨
        (∃ c, env.jsonDecode r.body = Except.ok c ∧ c "content" = none)) →
      (handleSet env w r).2.status = 400 ∧ (handleSet env w r).1 = w := by
    intro hj hbad
    rcases hbad with ⟨e, he⟩ | ⟨c, hc, hkey⟩
    · simp [handleSet, extractContent, hj, he, httpError, StatusBadRequest]
    · simp [handleSet, extractContent, hj, hc, hkey, httpError, StatusBadRequest]
  have h2 : ∀ x e, extractContent env r = Except.ok x → x ≠ "" → env.writeAll x = some e →
      (handleSet env w r).2.status = 500 := by
    intro x e hex hx hwr
    simp [handleSet, hex, hx, hwr, httpError, StatusInternalServerError]
  have h3 : ¬ (r.declaredJSON ∧
        ((∃ e, env.jsonDecode r.body = Except.error e) ∨
          (∃ c, env.jsonDecode r.body = Except.ok c ∧ c "content" = none))) →
      ¬ (∃ x e, extractContent env r = Except.ok x ∧ x ≠ "" ∧ env.writeAll x = some e) →
      (handleSet env w r).2.status = 200 := by
    intro hgood hnofail
    by_cases hj : r.declaredJSON
    · cases hd : env.jsonDecode r.body with
      | error e => exact absurd ⟨hj, Or.inl ⟨e, hd⟩⟩ hgood
      | ok c =>
        cases hk : c "content" with
        | none => exact absurd ⟨hj, Or.inr ⟨c, hd, hk⟩⟩ hgood
        | some x =>
          have hex := extractContent_json env r c x hj hd hk
          by_cases hx : x = ""
          · simp [handleSet, hex, hx, StatusOK]
          · cases hwr : env.writeAll x with
            | some e => exact absurd ⟨x, e, hex, hx, hwr⟩ hnofail
            | none => simp [handleSet, hex, hx, hwr, StatusOK]
    · have hex := extractContent_form env r hj
      by_cases hx : r.formContent = ""
      · simp [handleSet, hex, hx, StatusOK]
      · cases hwr : env.writeAll r.formContent with
        | some e => exact absurd ⟨r.formContent, e, hex, hx, hwr⟩ hnofail
        | none => simp [handleSet, hex, hx, hwr, StatusOK]
  refine ⟨h1, h2, h3, ?_, ?_⟩
  · intro hs
    by_contra hbad
    by_cases hfail : ∃ x e, extractContent env r = Except.ok x ∧ x ≠ "" ∧ env.writeAll x = some e
    · obtain ⟨x, e, hex, hx, hwr⟩ := hfail
      have := h2 x e hex hx hwr
      omega
    · have := h3 hbad hfail
      omega
  · intro hs
    by_contra hfail
    by_cases hbad : r.declaredJSON ∧
        ((∃ e, env.jsonDecode r.body = Except.error e) ∨
          (∃ c, env.jsonDecode r.body = Except.ok c ∧ c "content" = none))
    · have := (h1 hbad.1 hbad.2).1
      omega
    · have := h3 hbad hfail
      omega

/-- C7, as stated, fails in both directions with the decoder of
`encoding/json`. The body with the key `content` holding `x` followed by
`garbage` is malformed JSON (the scanner leaves `garbage` after the object),
and the handler, declared JSON, writes `x` to the clipboard and answers 200:
the decoder stops after the first value. The body
with the key `content` holding the number 1 is well-formed JSON with the key
`content`, no clipboard write fails, and the handler answers 400: the decoder
rejects a value that is not a string. -/
theorem handleSet_status_not_by_wellformedness :
    (validJSON "\x7b\"content\":\"x\"\x7dgarbage" = false ∧
      (scanValue 23 "\x7b\"content\":\"x\"\x7dgarbage".toList).map (fun p => String.mk p.2)
        = some "garbage" ∧
      handleSet (goEnv false) ⟨["a"], []⟩
          ⟨"", "application/json", "\x7b\"content\":\"x\"\x7dgarbage", ""⟩
        = (⟨["a"], ["x"]⟩, ⟨200, none, Payload.empty⟩)) ∧
    (validJSON "\x7b\"content\":1\x7d" = true ∧
      objectHasKey "\x7b\"content\":1\x7d" "content" = true ∧
      handleSet (goEnv false) ⟨["a"], []⟩
          ⟨"", "application/json", "\x7b\"content\":1\x7d", ""⟩
        = (⟨["a"], []⟩, httpError "Was not able to parse input JSON" 400)) := by
  refine ⟨⟨by decide, by decide, by decide⟩, by decide, by decide, by decide⟩

theorem handleSet_error_statuses_witness :
    (handleSet (sampleEnv false) ⟨["a"], []⟩ ⟨"", "text/json", "\x7b\"content\":", ""⟩
      = (⟨["a"], []⟩, httpError "Was not able to parse input JSON" 400)) ∧
    (handleSet (sampleEnv false) ⟨["a"], []⟩ ⟨"", "application/json", "\x7b\x7d", ""⟩).2.status
      = 400 ∧
    (handleSet (sampleEnv true) ⟨["a"], []⟩ ⟨"", "", "", "x"⟩).2.status = 500 ∧
    (handleSet (sampleEnv false) ⟨["a"], []⟩ ⟨"", "", "", "x"⟩).2.status = 200 := by
  have h1 := (handleSet_error_statuses (sampleEnv false) ⟨["a"], []⟩
    ⟨"", "text/json", "\x7b\"content\":", ""⟩).1 (by decide) (Or.inl ⟨"invalid character", rfl⟩)
  have h2 := (handleSet_error_statuses (sampleEnv false) ⟨["a"], []⟩
    ⟨"", "application/json", "\x7b\x7d", ""⟩).1 (by decide) (Or.inr ⟨fun _ => none, rfl, rfl⟩)
  have h3 := (handleSet_error_statuses (sampleEnv true) ⟨["a"], []⟩
    ⟨"", "", "", "x"⟩).2.1 "x" "exit status 1" rfl (by decide) rfl
  have h4 := (handleSet_error_statuses (sampleEnv false) ⟨["a"], []⟩
    ⟨"", "", "", "x"⟩).2.2.1 (fun h => absurd h.1 (by decide))
      (fun h => by
        obtain ⟨x, e, _, _, hwr⟩ := h
        simp [sampleEnv] at hwr)
  refine ⟨?_, h2.1, h3, h4⟩
  exact Prod.ext h1.2 (by decide)

/-- C8: empty content is a no-op for `handleSet`: when the content is the
empty string, given by a JSON body with the key `content` holding the empty
string or by an empty or absent form field `content`, the handler makes no
clipboard write, changes nothing and answers 200 with an empty body. -/
theorem handleSet_empty_content_noop (env : Env) (w : World) (r : Request)
    (h : (r.declaredJSON ∧ ∃ c, env.jsonDecode r.body = Except.ok c ∧ c "content" = some "") ∨
      (¬ r.declaredJSON ∧ r.formContent = "")) :
    handleSet env w r = (w, { status := 200, contentType := none, payload := Payload.empty }) := by
  rcases h with ⟨hj, c, hd, hk⟩ | ⟨hj, hf⟩
  · have hex := extractContent_json env r c "" hj hd hk
    simp [handleSet, hex, StatusOK]
  · have hex := extractContent_form env r hj
    simp [handleSet, hex, hf, StatusOK]

theorem handleSet_empty_content_noop_witness :
    handleSet (sampleEnv true) ⟨["a"], ["b"]⟩
        ⟨"", "application/json", "\x7b\"content\":\"\"\x7d", "ignored"⟩
      = (⟨["a"], ["b"]⟩, ⟨200, none, Payload.empty⟩) ∧
    handleSet (sampleEnv true) ⟨["a"], ["b"]⟩
        ⟨"", "application/x-www-form-urlencoded", "", ""⟩
      = (⟨["a"], ["b"]⟩, ⟨200, none, Payload.empty⟩) :=
  ⟨handleSet_empty_content_noop (sampleEnv true) ⟨["a"], ["b"]⟩
      ⟨"", "application/json", "\x7b\"content\":\"\"\x7d", "ignored"⟩
      (Or.inl ⟨by decide, fun k => if k = "content" then some "" else none, rfl, rfl⟩),
   handleSet_empty_content_noop (sampleEnv true) ⟨["a"], ["b"]⟩
      ⟨"", "application/x-www-form-urlencoded", "", ""⟩
      (Or.inr ⟨by decide, rfl⟩)⟩

end Remoteclip
